import Mathlib

/-!
Verification development for the training-consolidation workbench core:
the slide chunking and salience aggregation of `src/semantic/assets.py`
(`build_knowledge_graph`), the concept harmonization of
`src/semantic/harmonization.py` (`Harmonizer.apply_clusters`) together with
its Dagster caller (`harmonize_concepts`), and the curriculum generator of
`src/services/generator_service copy.py` (`GeneratorService`).

Modelling conventions:
- machine floats carrying salience scores are modelled as `Rat`;
- the Neo4j graph store and the Weaviate vector index are external
  collaborators: graph query result rows and vector search responses are
  inputs of the embedded functions, and every Cypher statement issued by the
  code is modelled by its effect on an explicit record of the touched
  entities;
- Python dicts keyed by insertion order are modelled as association lists,
  Python sets as first-occurrence-deduplicated lists (membership-faithful);
- a Python exception is modelled with `Except` (or an explicit error
  component) at the point where the source can raise.
-/

/-! ## Part A: page grouping (chunking) in `build_knowledge_graph`
(`src/semantic/assets.py`, lines 126-148).

Elements carrying an explicit `page_number` go to that page; elements
without one go to a synthetic page counter that advances once the
accumulated text length since the last advance exceeds `CHUNK_LIMIT`. -/

/-- One entry of the `text_elements` JSON list: its text and the optional
`metadata["page_number"]`. -/
structure TextElement where
  text : String
  page_number : Option Nat
deriving Repr, DecidableEq

/-- The chunk threshold from the source: `CHUNK_LIMIT = 1500`. -/
def CHUNK_LIMIT : Nat := 1500

/-- Model of `pages[page_num].append(text)` on a `defaultdict(list)`:
appends to the entry of the key, creating the entry at the end (Python
dict insertion order) when absent. -/
def addToPage : List (Nat × List String) → Nat → String → List (Nat × List String)
  | [], p, t => [(p, [t])]
  | (q, ts) :: rest, p, t =>
    if q = p then (q, ts ++ [t]) :: rest
    else (q, ts) :: addToPage rest p t

/-- The loop state of the grouping pass: the `pages` dict, the synthetic
counter `current_chunk_page` and the accumulated `current_chunk_size`. -/
structure ChunkState where
  pages : List (Nat × List String)
  current_chunk_page : Nat
  current_chunk_size : Nat
deriving Repr, DecidableEq

/-- One iteration of the `for el in text_elements` grouping loop. -/
def chunkStep (st : ChunkState) (el : TextElement) : ChunkState :=
  match el.page_number with
  | some p => { st with pages := addToPage st.pages p el.text }
  | none =>
    let pages := addToPage st.pages st.current_chunk_page el.text
    let size := st.current_chunk_size + el.text.length
    if size > CHUNK_LIMIT then
      ⟨pages, st.current_chunk_page + 1, 0⟩
    else
      ⟨pages, st.current_chunk_page, size⟩

/-- The whole grouping pass: fold over the elements starting from
`pages = {}`, `current_chunk_page = 1`, `current_chunk_size = 0`; the result
is the `pages` dict. -/
def groupPages (els : List TextElement) : List (Nat × List String) :=
  (els.foldl chunkStep ⟨[], 1, 0⟩).pages

/-- All grouped texts in page order (groups in dict order, texts in append
order within a group). -/
def flatTexts (pages : List (Nat × List String)) : List String :=
  (pages.map Prod.snd).flatten

/-- Total character count stored in the groups. -/
def totalChars (pages : List (Nat × List String)) : Nat :=
  ((flatTexts pages).map String.length).sum

theorem chunkStep_none_eq (st : ChunkState) (t : String) :
    chunkStep st ⟨t, none⟩ =
      if st.current_chunk_size + t.length > CHUNK_LIMIT then
        ⟨addToPage st.pages st.current_chunk_page t, st.current_chunk_page + 1, 0⟩
      else
        ⟨addToPage st.pages st.current_chunk_page t, st.current_chunk_page,
          st.current_chunk_size + t.length⟩ := rfl

theorem flatTexts_cons (q : Nat) (ts : List String) (rest : List (Nat × List String)) :
    flatTexts ((q, ts) :: rest) = ts ++ flatTexts rest := by
  simp [flatTexts]

theorem flatTexts_append (p1 p2 : List (Nat × List String)) :
    flatTexts (p1 ++ p2) = flatTexts p1 ++ flatTexts p2 := by
  simp [flatTexts]

theorem addToPage_fresh (pages : List (Nat × List String)) (a n p : Nat) (t : String)
    (hk : pages.map Prod.fst = List.range' a n) (hp : a + n ≤ p) :
    addToPage pages p t = pages ++ [(p, [t])] := by
  induction pages generalizing a n with
  | nil => rfl
  | cons hd tl ih =>
    obtain ⟨q, ts⟩ := hd
    cases n with
    | zero => simp [List.range'] at hk
    | succ m =>
      rw [List.range'_succ] at hk
      simp only [List.map_cons, List.cons.injEq] at hk
      obtain ⟨hq, htl⟩ := hk
      subst hq
      have hqp : ¬ q = p := by omega
      simp only [addToPage, if_neg hqp, List.cons_append, List.cons.injEq, true_and]
      exact ih (q + 1) m htl (by omega)

theorem addToPage_last (pages : List (Nat × List String)) (a n p : Nat) (t : String)
    (hk : pages.map Prod.fst = List.range' a (n + 1)) (hp : p = a + n) :
    (addToPage pages p t).map Prod.fst = pages.map Prod.fst
    ∧ flatTexts (addToPage pages p t) = flatTexts pages ++ [t] := by
  induction pages generalizing a n with
  | nil =>
    rw [List.range'_succ] at hk
    simp at hk
  | cons hd tl ih =>
    obtain ⟨q, ts⟩ := hd
    rw [List.range'_succ] at hk
    simp only [List.map_cons, List.cons.injEq] at hk
    obtain ⟨hq, htl⟩ := hk
    subst hq
    cases n with
    | zero =>
      have htl' : tl = [] := by
        cases tl with
        | nil => rfl
        | cons x xs => simp [List.range'] at htl
      subst htl'
      have hqp : q = p := by omega
      simp [addToPage, hqp, flatTexts]
    | succ m =>
      have hqp : ¬ q = p := by omega
      have step := ih (q + 1) m htl (by omega)
      simp only [addToPage, if_neg hqp, List.map_cons, List.cons.injEq, true_and,
        flatTexts_cons]
      exact ⟨step.1, by rw [step.2, List.append_assoc]⟩

/-- Invariant of the grouping loop on page-number-less input: page keys are
the consecutive run `1..pages.length`; the synthetic counter sits on the
last existing page or one past it (with a fresh size); and every completed
page accumulated strictly more than `CHUNK_LIMIT` characters, expressed as a
lower bound on the total stored characters. -/
def ChunkInv (st : ChunkState) : Prop :=
  st.pages.map Prod.fst = List.range' 1 st.pages.length
  ∧ (st.current_chunk_page = st.pages.length + 1 ∧ st.current_chunk_size = 0
      ∨ st.current_chunk_page = st.pages.length ∧ 0 < st.pages.length)
  ∧ (CHUNK_LIMIT + 1) * (st.current_chunk_page - 1) + st.current_chunk_size
      ≤ totalChars st.pages

theorem totalChars_of_flat_append (p1 p2 : List (Nat × List String)) (t : String)
    (h : flatTexts p2 = flatTexts p1 ++ [t]) :
    totalChars p2 = totalChars p1 + t.length := by
  simp [totalChars, h]

theorem chunkInv_step (st : ChunkState) (t : String) (h : ChunkInv st) :
    ChunkInv (chunkStep st ⟨t, none⟩)
    ∧ flatTexts (chunkStep st ⟨t, none⟩).pages = flatTexts st.pages ++ [t] := by
  obtain ⟨hkeys, hpage, htot⟩ := h
  rw [chunkStep_none_eq]
  rcases hpage with ⟨hp, hsz⟩ | ⟨hp, hpos⟩
  · -- the counter is one past the last page: the element opens a fresh page
    have hfresh : addToPage st.pages st.current_chunk_page t
        = st.pages ++ [(st.current_chunk_page, [t])] :=
      addToPage_fresh st.pages 1 st.pages.length st.current_chunk_page t hkeys (by omega)
    rw [hfresh]
    have hkeys2 : (st.pages ++ [(st.current_chunk_page, [t])]).map Prod.fst
        = List.range' 1 (st.pages.length + 1) := by
      rw [List.map_append, hkeys, List.range'_concat]
      simp [hp, Nat.add_comm]
    have hflat2 : flatTexts (st.pages ++ [(st.current_chunk_page, [t])])
        = flatTexts st.pages ++ [t] := by
      rw [flatTexts_append]
      simp [flatTexts]
    have htc : totalChars (st.pages ++ [(st.current_chunk_page, [t])])
        = totalChars st.pages + t.length :=
      totalChars_of_flat_append _ _ _ hflat2
    have hlen : (st.pages ++ [(st.current_chunk_page, [t])]).length
        = st.pages.length + 1 := by simp
    by_cases hc : st.current_chunk_size + t.length > CHUNK_LIMIT
    · rw [if_pos hc]
      refine ⟨⟨?_, ?_, ?_⟩, ?_⟩ <;> dsimp only
      · rw [hlen]
        exact hkeys2
      · left
        exact ⟨by rw [hlen]; omega, rfl⟩
      · rw [htc]
        simp only [CHUNK_LIMIT] at htot hc ⊢
        omega
      · exact hflat2
    · rw [if_neg hc]
      refine ⟨⟨?_, ?_, ?_⟩, ?_⟩ <;> dsimp only
      · rw [hlen]
        exact hkeys2
      · right
        exact ⟨by rw [hlen]; omega, by rw [hlen]; omega⟩
      · rw [htc]
        simp only [CHUNK_LIMIT] at htot hc ⊢
        omega
      · exact hflat2
  · -- the counter is the last existing page: the element joins that page
    have hlen1 : st.pages.length - 1 + 1 = st.pages.length := by omega
    have hlast := addToPage_last st.pages 1 (st.pages.length - 1)
      st.current_chunk_page t (by rw [hlen1]; exact hkeys) (by omega)
    have hlen2 : (addToPage st.pages st.current_chunk_page t).length
        = st.pages.length := by
      have := congrArg List.length hlast.1
      simpa using this
    have htc : totalChars (addToPage st.pages st.current_chunk_page t)
        = totalChars st.pages + t.length :=
      totalChars_of_flat_append _ _ _ hlast.2
    by_cases hc : st.current_chunk_size + t.length > CHUNK_LIMIT
    · rw [if_pos hc]
      refine ⟨⟨?_, ?_, ?_⟩, ?_⟩ <;> dsimp only
      · rw [hlen2, hlast.1]
        exact hkeys
      · left
        exact ⟨by rw [hlen2]; omega, rfl⟩
      · rw [htc]
        simp only [CHUNK_LIMIT] at htot hc ⊢
        omega
      · exact hlast.2
    · rw [if_neg hc]
      refine ⟨⟨?_, ?_, ?_⟩, ?_⟩ <;> dsimp only
      · rw [hlen2, hlast.1]
        exact hkeys
      · right
        exact ⟨by rw [hlen2]; omega, by rw [hlen2]; omega⟩
      · rw [htc]
        simp only [CHUNK_LIMIT] at htot hc ⊢
        omega
      · exact hlast.2

theorem chunkInv_foldl (els : List TextElement) (st : ChunkState)
    (hnone : ∀ el ∈ els, el.page_number = none) (h : ChunkInv st) :
    ChunkInv (els.foldl chunkStep st)
    ∧ flatTexts (els.foldl chunkStep st).pages
        = flatTexts st.pages ++ els.map (fun el => el.text) := by
  induction els generalizing st with
  | nil => simpa using h
  | cons el rest ih =>
    obtain ⟨t, pn⟩ := el
    have hel : pn = none := hnone ⟨t, pn⟩ (by simp)
    subst hel
    have step := chunkInv_step st t h
    have tail := ih (chunkStep st ⟨t, none⟩)
      (fun e he => hnone e (by simp [he])) step.1
    refine ⟨tail.1, ?_⟩
    rw [List.foldl_cons, tail.2, step.2, List.map_cons, List.append_assoc]
    simp

theorem chunkInv_init : ChunkInv ⟨[], 1, 0⟩ := by
  refine ⟨rfl, Or.inl ⟨rfl, rfl⟩, ?_⟩
  simp [totalChars, flatTexts]

theorem chunkStep_pages_of_none (st : ChunkState) (t : String) :
    (chunkStep st ⟨t, none⟩).pages = addToPage st.pages st.current_chunk_page t := by
  rw [chunkStep_none_eq]
  by_cases hc : st.current_chunk_size + t.length > CHUNK_LIMIT
  · rw [if_pos hc]
  · rw [if_neg hc]

/-- A single page-number-less element whose text is 3200 characters long. -/
def bigElementText : String := String.mk (List.replicate 3200 'a')

/-- Concrete input refuting claim C8: 3200 characters arriving as one
element. -/
def c8Input : List TextElement := [⟨bigElementText, none⟩]

/-- Claim C8, counterexample: the claim says every page-number-less element
list totalling 3200 characters yields exactly 3 synthetic page groups, but a
single 3200-character element is placed on synthetic page 1 before the
counter advances, yielding exactly 1 group. -/
theorem claim_c8_counterexample :
    (∀ el ∈ c8Input, el.page_number = none)
    ∧ (c8Input.map (fun el => el.text.length)).sum = 3200
    ∧ (groupPages c8Input).length = 1
    ∧ (groupPages c8Input).length ≠ 3 := by
  have h1 : groupPages c8Input = addToPage [] 1 bigElementText := by
    unfold groupPages c8Input
    rw [List.foldl_cons, List.foldl_nil, chunkStep_pages_of_none]
  refine ⟨by decide, ?_, ?_, ?_⟩
  · simp only [c8Input, List.map_cons, List.map_nil, List.sum_cons, List.sum_nil]
    rw [bigElementText, String.length_mk, List.length_replicate]
    rfl
  · rw [h1]
    rfl
  · rw [h1]
    decide

/-- Claim C8, amended: grouping a non-empty list of page-number-less text
elements whose texts total 3200 characters with the 1500-character chunk
threshold yields between 1 and 3 synthetic page groups (exactly 3 is not
guaranteed: each completed group only exceeds 1500 characters), and each
element is placed in exactly one group in original order (concatenating the
groups in page order recovers the original text sequence). -/
theorem claim_c8_amended (els : List TextElement)
    (hnone : ∀ el ∈ els, el.page_number = none)
    (htotal : (els.map (fun el => el.text.length)).sum = 3200)
    (hne : els ≠ []) :
    1 ≤ (groupPages els).length ∧ (groupPages els).length ≤ 3
    ∧ flatTexts (groupPages els) = els.map (fun el => el.text) := by
  obtain ⟨⟨hkeys, hpage, htot⟩, hflat⟩ := chunkInv_foldl els ⟨[], 1, 0⟩ hnone chunkInv_init
  have hgp : groupPages els = (els.foldl chunkStep ⟨[], 1, 0⟩).pages := rfl
  have hflat' : flatTexts (groupPages els) = els.map (fun el => el.text) := by
    rw [hgp, hflat]
    simp [flatTexts]
  have htc : totalChars (groupPages els) = 3200 := by
    rw [totalChars, hflat', List.map_map]
    exact htotal
  rw [← hgp] at hpage htot
  rw [htc] at htot
  have h1 : 1 ≤ (groupPages els).length := by
    rcases Nat.eq_zero_or_pos (groupPages els).length with h0 | hpos
    · exfalso
      have hnil : groupPages els = [] := List.length_eq_zero.mp h0
      have hlen := congrArg List.length hflat'
      rw [hnil, List.length_map] at hlen
      have : els = [] := by
        cases els with
        | nil => rfl
        | cons x xs => simp [flatTexts] at hlen
      exact hne this
    · exact hpos
  refine ⟨h1, ?_, hflat'⟩
  simp only [CHUNK_LIMIT] at htot
  rcases hpage with ⟨hp, _⟩ | ⟨hp, _⟩ <;> omega

/-- Witness input for the amended claim C8: two page-number-less elements of
1600 characters each. -/
def c8WitnessInput : List TextElement :=
  [⟨String.mk (List.replicate 1600 'a'), none⟩,
   ⟨String.mk (List.replicate 1600 'a'), none⟩]

/-- Witness for the amended claim C8 at a concrete input. -/
theorem claim_c8_amended_witness :
    1 ≤ (groupPages c8WitnessInput).length ∧ (groupPages c8WitnessInput).length ≤ 3
    ∧ flatTexts (groupPages c8WitnessInput) = c8WitnessInput.map (fun el => el.text) :=
  claim_c8_amended c8WitnessInput (by decide)
    (by
      simp only [c8WitnessInput, List.map_cons, List.map_nil, List.sum_cons,
        List.sum_nil]
      rw [String.length_mk, List.length_replicate]
      rfl)
    (by simp [c8WitnessInput])

/-! ## Part B: section concept aggregation in `build_knowledge_graph`
(`src/semantic/assets.py`, lines 236-261).

The Cypher query groups the TEACHES rows of one section's subtree by
concept name, sums `coalesce(t.salience, 0.5)` per name, orders by the
summed salience descending (`ORDER BY sec.id, total_salience DESC` -- note:
no tie-break on the name), collects, and stores the names of the first 5
entries as `concept_summary`.

A row order is unspecified for a graph pattern match, so the embedded
aggregation takes the matched rows as a list in an arbitrary traversal
order; group creation follows first occurrence and the `ORDER BY` is
modelled as a stable sort on the incoming order, one behaviour the query
is allowed to exhibit. -/

/-- One matched row of the aggregation pattern: a TEACHES edge in the
section's subtree, carrying the concept name and the optional salience. -/
structure TeachRow where
  concept : String
  salience : Option Rat
deriving Repr, DecidableEq

/-- The Cypher `coalesce(t.salience, 0.5)`. -/
def coalesce05 (r : TeachRow) : Rat := r.salience.getD (1 / 2)

/-- Accumulate one row into the per-name sums (grouping by concept name,
first-occurrence order). -/
def addSum : List (String × Rat) → String → Rat → List (String × Rat)
  | [], c, v => [(c, v)]
  | (n, s) :: rest, c, v =>
    if n = c then (n, s + v) :: rest else (n, s) :: addSum rest c v

/-- The `WITH sec, con.name as concept_name, sum(coalesce(t.salience, 0.5))
as total_salience` grouping: per-name summed salience over the rows. -/
def groupSums (rows : List TeachRow) : List (String × Rat) :=
  rows.foldl (fun acc r => addSum acc r.concept (coalesce05 r)) []

/-- The `ORDER BY total_salience DESC` comparison: a comes no later than b
when its summed salience is at least b's. -/
def salGE (a b : String × Rat) : Prop := b.2 ≤ a.2

instance : DecidableRel salGE := fun a b => inferInstanceAs (Decidable (b.2 ≤ a.2))

instance : IsTotal (String × Rat) salGE := ⟨fun a b => le_total b.2 a.2⟩

instance : IsTrans (String × Rat) salGE := ⟨fun _ _ _ h1 h2 => le_trans h2 h1⟩

/-- The grouped sums ordered by salience descending (stable in the incoming
row order; the query orders by `total_salience DESC` only). -/
def rankedConcepts (rows : List TeachRow) : List (String × Rat) :=
  List.insertionSort salGE (groupSums rows)

/-- The stored `concept_summary`: `[x IN concepts[0..5] | x.name]`. -/
def conceptSummary (rows : List TeachRow) : List String :=
  ((rankedConcepts rows).take 5).map Prod.fst

theorem lookup_addSum (acc : List (String × Rat)) (k c : String) (v : Rat) :
    List.lookup c (addSum acc k v)
      = if k = c then some ((List.lookup c acc).getD 0 + v)
        else List.lookup c acc := by
  induction acc with
  | nil =>
    by_cases h : k = c
    · subst h
      simp [addSum, List.lookup]
    · have h2 : (c == k) = false := beq_eq_false_iff_ne.mpr (fun e => h e.symm)
      simp [addSum, List.lookup, h, h2]
  | cons hd rest ih =>
    obtain ⟨n, s⟩ := hd
    by_cases hnk : n = k
    · subst hnk
      by_cases hnc : n = c
      · subst hnc
        simp [addSum, List.lookup]
      · have h2 : (c == n) = false := beq_eq_false_iff_ne.mpr (fun e => hnc e.symm)
        simp [addSum, List.lookup, hnc, h2]
    · by_cases hnc : n = c
      · have h2 : (c == n) = true := beq_iff_eq.mpr hnc.symm
        have hkc : ¬ k = c := fun e => hnk (hnc.trans e.symm)
        simp [addSum, hnk, List.lookup, h2, hkc]
      · have h2 : (c == n) = false := beq_eq_false_iff_ne.mpr (fun e => hnc e.symm)
        simp only [addSum, if_neg hnk, List.lookup, h2]
        rw [ih]

theorem groupSums_core (rows : List TeachRow) (c : String) :
    ∀ acc : List (String × Rat),
    List.lookup c (rows.foldl (fun a r => addSum a r.concept (coalesce05 r)) acc)
      = if rows.any (fun r => r.concept == c) then
          some ((List.lookup c acc).getD 0
            + ((rows.filter (fun r => r.concept == c)).map coalesce05).sum)
        else List.lookup c acc := by
  induction rows with
  | nil => simp
  | cons r rest ih =>
    intro acc
    rw [List.foldl_cons, ih]
    by_cases hr : r.concept = c
    · have hb : (r.concept == c) = true := by simpa using hr
      rw [lookup_addSum, if_pos hr]
      by_cases ha : rest.any (fun x => x.concept == c) = true
      · simp only [List.any_cons, hb, Bool.true_or, if_pos ha, ite_true,
          List.filter_cons, List.map_cons, List.sum_cons, Option.getD_some]
        rw [add_assoc]
      · simp only [Bool.not_eq_true] at ha
        have hfil : rest.filter (fun x => x.concept == c) = [] := by
          rw [List.filter_eq_nil_iff]
          intro x hx
          have := List.any_eq_false.mp ha x hx
          simpa using this
        simp [List.any_cons, hb, ha, hfil, List.filter_cons]
    · have hb : ¬ (r.concept == c) = true := by simpa using hr
      rw [lookup_addSum, if_neg hr]
      simp [List.any_cons, hb, List.filter_cons]

/-- Claim C5: for a concept appearing on rows of a section's subtree, the
aggregated weight stored for it is the sum of the (coalesced) salience
values of its rows, and -- when the salience values are non-negative, as
[0,1]-valued saliences are -- that sum is at least every contributing value,
hence at least their maximum. -/
theorem claim_c5_salience (rows : List TeachRow) (c : String)
    (hc : rows.any (fun r => r.concept == c) = true)
    (hnn : ∀ r ∈ rows, 0 ≤ coalesce05 r) :
    List.lookup c (groupSums rows)
      = some (((rows.filter (fun r => r.concept == c)).map coalesce05).sum)
    ∧ ∀ v ∈ (rows.filter (fun r => r.concept == c)).map coalesce05,
        v ≤ ((rows.filter (fun r => r.concept == c)).map coalesce05).sum := by
  constructor
  · rw [groupSums, groupSums_core rows c [], if_pos hc]
    simp [List.lookup]
  · intro v hv
    refine List.single_le_sum ?_ v hv
    intro x hx
    obtain ⟨r, hrmem, hrx⟩ := List.mem_map.mp hx
    exact hrx ▸ hnn r (List.mem_of_mem_filter hrmem)

/-- Witness for claim C5 at a concrete input: concept Voltage appears with
saliences 7/10 and 2/5 (and one unrelated row with an omitted salience);
its aggregated weight is 11/10. -/
theorem claim_c5_salience_witness :
    (List.lookup "Voltage" (groupSums
        [⟨"Voltage", some (7/10)⟩, ⟨"Voltage", some (2/5)⟩, ⟨"Safety", none⟩])
      = some ((([⟨"Voltage", some (7/10)⟩, ⟨"Voltage", some (2/5)⟩,
          ⟨"Safety", none⟩] : List TeachRow).filter
            (fun r => r.concept == "Voltage")).map coalesce05).sum)
    ∧ ∀ v ∈ (([⟨"Voltage", some (7/10)⟩, ⟨"Voltage", some (2/5)⟩,
          ⟨"Safety", none⟩] : List TeachRow).filter
            (fun r => r.concept == "Voltage")).map coalesce05,
        v ≤ ((([⟨"Voltage", some (7/10)⟩, ⟨"Voltage", some (2/5)⟩,
          ⟨"Safety", none⟩] : List TeachRow).filter
            (fun r => r.concept == "Voltage")).map coalesce05).sum :=
  claim_c5_salience _ "Voltage" (by decide)
    (by
      intro r hr
      fin_cases hr <;> norm_num [coalesce05])

/-- Claim C2, counterexample: the claim says equal summed saliences are
ordered by ascending concept name, making `concept_summary` deterministic
and independent of traversal order. The query orders by
`total_salience DESC` only: with two concepts B and A of equal summed
salience 1, the summary lists them in row-arrival order, so the two
traversal orders of the same rows produce different summaries and the
tied pair B, A is not in ascending name order. -/
theorem claim_c2_counterexample :
    groupSums [⟨"B", some 1⟩, ⟨"A", some 1⟩] = [("B", 1), ("A", 1)]
    ∧ groupSums [⟨"A", some 1⟩, ⟨"B", some 1⟩] = [("A", 1), ("B", 1)]
    ∧ conceptSummary [⟨"B", some 1⟩, ⟨"A", some 1⟩] = ["B", "A"]
    ∧ conceptSummary [⟨"A", some 1⟩, ⟨"B", some 1⟩] = ["A", "B"]
    ∧ conceptSummary [⟨"B", some 1⟩, ⟨"A", some 1⟩]
        ≠ conceptSummary [⟨"A", some 1⟩, ⟨"B", some 1⟩] := by
  refine ⟨?_, ?_, ?_, ?_, ?_⟩ <;> decide

/-- Claim C2, amended: the stored `concept_summary` is the names of the
first 5 entries of the grouped sums sorted by summed salience descending;
it has at most 5 entries, its salience sequence is non-increasing, and
every omitted concept's sum is at most every kept concept's sum. Ties in
the summed salience keep the traversal (row) order -- there is no name
tie-break, so the ranking is not independent of traversal order. -/
theorem claim_c2_amended (rows : List TeachRow) :
    (conceptSummary rows).length ≤ 5
    ∧ conceptSummary rows = ((rankedConcepts rows).take 5).map Prod.fst
    ∧ List.Sorted salGE ((rankedConcepts rows).take 5)
    ∧ ∀ x ∈ (rankedConcepts rows).take 5, ∀ y ∈ (rankedConcepts rows).drop 5,
        y.2 ≤ x.2 := by
  have hs : List.Sorted salGE (rankedConcepts rows) :=
    List.sorted_insertionSort salGE (groupSums rows)
  refine ⟨?_, rfl, ?_, ?_⟩
  · simp only [conceptSummary, List.length_map, List.length_take]
    exact Nat.min_le_left _ _
  · exact List.Pairwise.sublist (List.take_sublist 5 _) hs
  · have hs' : List.Pairwise salGE
        ((rankedConcepts rows).take 5 ++ (rankedConcepts rows).drop 5) := by
      rw [List.take_append_drop]
      exact hs
    obtain ⟨-, -, h3⟩ := List.pairwise_append.mp hs'
    intro x hx y hy
    exact h3 x hx y hy

/-! ## Part C: concept harmonization
(`src/semantic/harmonization.py`, `Harmonizer.apply_clusters`, lines 54-76,
and its Dagster caller `harmonize_concepts` in `src/semantic/assets.py`,
lines 11-32).

`apply_clusters` loops over the clusters; per cluster it issues one
`MERGE (cc:CanonicalConcept {name}) SET cc.description` write, then one
`MATCH (c:Concept) MATCH (cc) MERGE (c)-[:ALIGNS_TO]->(cc)` write per
source concept. There is no try/except inside the loop; the Dagster asset
wraps the whole call, logs, and re-raises.

The graph store is external, so a write can fail; which writes fail is an
input (`fail`). The loop runs until its first failing write, whose
exception propagates with the state built so far. -/

/-- One cluster from the clustering collaborator. -/
structure ConceptCluster where
  canonical_name : String
  description : String
  source_concepts : List String
deriving Repr, DecidableEq

/-- The graph slice touched by harmonization: existing Concept names,
CanonicalConcept nodes (name, description) in creation order, and
ALIGNS_TO edges (concept name, canonical name) in creation order. -/
structure ConceptGraph where
  concepts : List String
  canonicals : List (String × String)
  aligns : List (String × String)
deriving Repr, DecidableEq

/-- A single graph write issued by `apply_clusters`. -/
inductive WriteOp where
  | canon (name desc : String)
  | align (source canon : String)
deriving Repr, DecidableEq

/-- The `MERGE (cc:CanonicalConcept {name: $name}) SET cc.description`
upsert: update the description in place, or append a new node. -/
def upsertCanonical : List (String × String) → String → String → List (String × String)
  | [], name, desc => [(name, desc)]
  | (n, d) :: rest, name, desc =>
    if n = name then (n, desc) :: rest
    else (n, d) :: upsertCanonical rest name desc

/-- Effect of one write on the graph. The ALIGNS_TO merge only fires when
both `MATCH` clauses find their node (a Cypher `MATCH` that finds nothing
makes the statement a no-op, not an error), and `MERGE` never duplicates
an existing edge. -/
def applyWrite (g : ConceptGraph) : WriteOp → ConceptGraph
  | .canon name desc => { g with canonicals := upsertCanonical g.canonicals name desc }
  | .align source canon =>
    if source ∈ g.concepts ∧ canon ∈ g.canonicals.map Prod.fst then
      if (source, canon) ∈ g.aligns then g
      else { g with aligns := g.aligns ++ [(source, canon)] }
    else g

/-- The inner `for source_name in cluster.source_concepts` loop: stops at
the first failing write, returning the state so far and the escaping
exception. -/
def applyAligns (fail : WriteOp → Bool) (canonName : String) :
    List String → ConceptGraph → ConceptGraph × Option WriteOp
  | [], g => (g, none)
  | s :: rest, g =>
    let op := WriteOp.align s canonName
    if fail op then (g, some op)
    else applyAligns fail canonName rest (applyWrite g op)

/-- One iteration of the `for cluster in clusters` loop: the canonical
upsert, then the alignment writes. -/
def applyCluster (fail : WriteOp → Bool) (cl : ConceptCluster) (g : ConceptGraph) :
    ConceptGraph × Option WriteOp :=
  let op := WriteOp.canon cl.canonical_name cl.description
  if fail op then (g, some op)
  else applyAligns fail cl.canonical_name cl.source_concepts (applyWrite g op)

/-- `Harmonizer.apply_clusters`: applies the clusters in order until the
first failing write; the returned `Option WriteOp` is the uncaught
exception (`none` when every write succeeded). -/
def apply_clusters (fail : WriteOp → Bool) :
    List ConceptCluster → ConceptGraph → ConceptGraph × Option WriteOp
  | [], g => (g, none)
  | cl :: rest, g =>
    match applyCluster fail cl g with
    | (g2, none) => apply_clusters fail rest g2
    | (g2, some e) => (g2, some e)

/-- A run in which no graph write fails. -/
def noFail : WriteOp → Bool := fun _ => false

/-- The Dagster asset `harmonize_concepts` around `apply_clusters`: on an
exception it logs `Harmonization failed` and re-raises, so the caller sees
the error; the graph keeps the writes committed before the failure. -/
def harmonize_concepts (fail : WriteOp → Bool) (clusters : List ConceptCluster)
    (g : ConceptGraph) : ConceptGraph × Except WriteOp Unit :=
  match apply_clusters fail clusters g with
  | (g2, none) => (g2, Except.ok ())
  | (g2, some e) => (g2, Except.error e)

theorem apply_clusters_append (fail : WriteOp → Bool) (xs ys : List ConceptCluster)
    (g : ConceptGraph) :
    apply_clusters fail (xs ++ ys) g =
      match apply_clusters fail xs g with
      | (g2, none) => apply_clusters fail ys g2
      | (g2, some e) => (g2, some e) := by
  induction xs generalizing g with
  | nil => rfl
  | cons cl rest ih =>
    simp only [List.cons_append, apply_clusters]
    cases h : applyCluster fail cl g with
    | mk g2 e =>
      cases e with
      | none => simp [ih]
      | some e => rfl

/-- Concrete clustering output for the claim C3 counterexample: two
clusters over two existing concepts. -/
def c3Clusters : List ConceptCluster :=
  [⟨"Emergency Stop", "halting devices", ["E-Stop"]⟩,
   ⟨"Voltage", "electric potential", ["Volts"]⟩]

/-- Graph before applying: the two source concepts exist, nothing else. -/
def c3Graph : ConceptGraph := ⟨["E-Stop", "Volts"], [], []⟩

/-- Failure pattern for the counterexample: the very first write (the
canonical upsert of the first cluster) fails. -/
def c3Fail : WriteOp → Bool :=
  fun op => op == WriteOp.canon "Emergency Stop" "halting devices"

/-- Claim C3, counterexample: the claim says a failure writing one cluster
is logged and the remaining clusters are still attempted, with the result
surfaced as degraded. In the code `apply_clusters` has no per-cluster
try/except: when the first cluster's write fails, the second cluster is
never attempted (its canonical node and alignment edge are absent from the
resulting graph) and the asset re-raises the exception, aborting the whole
apply step instead of returning a degraded result. -/
theorem claim_c3_counterexample :
    (harmonize_concepts c3Fail c3Clusters c3Graph).2
        = Except.error (WriteOp.canon "Emergency Stop" "halting devices")
    ∧ "Voltage" ∉ ((harmonize_concepts c3Fail c3Clusters c3Graph).1.canonicals.map Prod.fst)
    ∧ ("Volts", "Voltage") ∉ (harmonize_concepts c3Fail c3Clusters c3Graph).1.aligns := by
  refine ⟨rfl, ?_, ?_⟩ <;> decide

/-- Claim C3, amended: if, after some prefix of clusters has been applied
successfully, writing the next cluster fails, then the exception propagates
out of `apply_clusters` immediately: the clusters after it are not
attempted (the result does not depend on them), the writes of the earlier
clusters and of the failing cluster's successful prefix remain committed,
and the caller `harmonize_concepts` logs the failure and re-raises it, so
the apply step aborts with an error rather than returning a degraded
result. -/
theorem claim_c3_amended (fail : WriteOp → Bool) (pre post : List ConceptCluster)
    (cl : ConceptCluster) (g : ConceptGraph) (e : WriteOp)
    (hpre : (apply_clusters fail pre g).2 = none)
    (hfl : (applyCluster fail cl (apply_clusters fail pre g).1).2 = some e) :
    apply_clusters fail (pre ++ cl :: post) g
      = ((applyCluster fail cl (apply_clusters fail pre g).1).1, some e)
    ∧ harmonize_concepts fail (pre ++ cl :: post) g
      = ((applyCluster fail cl (apply_clusters fail pre g).1).1, Except.error e) := by
  have hp : apply_clusters fail pre g = ((apply_clusters fail pre g).1, none) := by
    rw [← hpre]
  have hq : applyCluster fail cl (apply_clusters fail pre g).1
      = ((applyCluster fail cl (apply_clusters fail pre g).1).1, some e) := by
    rw [← hfl]
  have hmain : apply_clusters fail (pre ++ cl :: post) g
      = ((applyCluster fail cl (apply_clusters fail pre g).1).1, some e) := by
    rw [apply_clusters_append, hp]
    simp only [apply_clusters]
    rw [hq]
  refine ⟨hmain, ?_⟩
  rw [harmonize_concepts, hmain]

/-- Witness for the amended claim C3 at a concrete input: empty successful
prefix, failing first cluster, one never-attempted cluster after it. -/
theorem claim_c3_amended_witness :
    apply_clusters c3Fail
        ([] ++ ⟨"Emergency Stop", "halting devices", ["E-Stop"]⟩
          :: [⟨"Voltage", "electric potential", ["Volts"]⟩]) c3Graph
      = ((applyCluster c3Fail ⟨"Emergency Stop", "halting devices", ["E-Stop"]⟩
            (apply_clusters c3Fail [] c3Graph).1).1,
          some (WriteOp.canon "Emergency Stop" "halting devices"))
    ∧ harmonize_concepts c3Fail
        ([] ++ ⟨"Emergency Stop", "halting devices", ["E-Stop"]⟩
          :: [⟨"Voltage", "electric potential", ["Volts"]⟩]) c3Graph
      = ((applyCluster c3Fail ⟨"Emergency Stop", "halting devices", ["E-Stop"]⟩
            (apply_clusters c3Fail [] c3Graph).1).1,
          Except.error (WriteOp.canon "Emergency Stop" "halting devices")) :=
  claim_c3_amended c3Fail [] [⟨"Voltage", "electric potential", ["Volts"]⟩]
    ⟨"Emergency Stop", "halting devices", ["E-Stop"]⟩ c3Graph
    (WriteOp.canon "Emergency Stop" "halting devices") rfl rfl

theorem mem_upsertCanonical (cs : List (String × String)) (name desc : String)
    (n : String) :
    n ∈ (upsertCanonical cs name desc).map Prod.fst
      ↔ n ∈ cs.map Prod.fst ∨ n = name := by
  induction cs with
  | nil => simp [upsertCanonical]
  | cons hd rest ih =>
    obtain ⟨m, d⟩ := hd
    by_cases hm : m = name
    · subst hm
      simp [upsertCanonical]
      tauto
    · simp [upsertCanonical, hm, ih]
      tauto

theorem applyWrite_align_parts (g : ConceptGraph) (s cn : String) :
    (applyWrite g (.align s cn)).concepts = g.concepts
    ∧ (applyWrite g (.align s cn)).canonicals = g.canonicals
    ∧ ∀ e, e ∈ (applyWrite g (.align s cn)).aligns ↔
        e ∈ g.aligns
        ∨ (e = (s, cn) ∧ s ∈ g.concepts ∧ cn ∈ g.canonicals.map Prod.fst) := by
  simp only [applyWrite]
  by_cases h1 : s ∈ g.concepts ∧ cn ∈ g.canonicals.map Prod.fst
  · rw [if_pos h1]
    by_cases h2 : (s, cn) ∈ g.aligns
    · rw [if_pos h2]
      refine ⟨rfl, rfl, fun e => ?_⟩
      constructor
      · exact Or.inl
      · rintro (h | ⟨he, -⟩)
        · exact h
        · exact he ▸ h2
    · rw [if_neg h2]
      refine ⟨rfl, rfl, fun e => ?_⟩
      simp only [List.mem_append, List.mem_singleton]
      constructor
      · rintro (h | h)
        · exact Or.inl h
        · exact Or.inr ⟨h, h1⟩
      · rintro (h | ⟨he, -⟩)
        · exact Or.inl h
        · exact Or.inr he
  · rw [if_neg h1]
    refine ⟨rfl, rfl, fun e => ?_⟩
    constructor
    · exact Or.inl
    · rintro (h | ⟨-, hc⟩)
      · exact h
      · exact absurd hc h1

theorem applyAligns_noFail (canonName : String) (ss : List String) (g : ConceptGraph) :
    (applyAligns noFail canonName ss g).2 = none
    ∧ (applyAligns noFail canonName ss g).1.concepts = g.concepts
    ∧ (applyAligns noFail canonName ss g).1.canonicals = g.canonicals
    ∧ ∀ e, e ∈ (applyAligns noFail canonName ss g).1.aligns ↔
        e ∈ g.aligns
        ∨ ∃ s ∈ ss, e = (s, canonName) ∧ s ∈ g.concepts
            ∧ canonName ∈ g.canonicals.map Prod.fst := by
  induction ss generalizing g with
  | nil =>
    refine ⟨rfl, rfl, rfl, fun e => ?_⟩
    simp [applyAligns]
  | cons s rest ih =>
    have hw := applyWrite_align_parts g s canonName
    have hstep : applyAligns noFail canonName (s :: rest) g
        = applyAligns noFail canonName rest (applyWrite g (.align s canonName)) := by
      simp [applyAligns, noFail]
    obtain ⟨ih1, ih2, ih3, ih4⟩ := ih (applyWrite g (.align s canonName))
    rw [hstep]
    refine ⟨ih1, by rw [ih2, hw.1], by rw [ih3, hw.2.1], fun e => ?_⟩
    rw [ih4 e]
    simp only [hw.1, hw.2.1, hw.2.2]
    constructor
    · rintro ((h | ⟨he, hs, hc⟩) | ⟨x, hx, he, hs, hc⟩)
      · exact Or.inl h
      · exact Or.inr ⟨s, by simp, he, hs, hc⟩
      · exact Or.inr ⟨x, by simp [hx], he, hs, hc⟩
    · rintro (h | ⟨x, hx, he, hs, hc⟩)
      · exact Or.inl (Or.inl h)
      · rcases List.mem_cons.mp hx with hx | hx
        · exact Or.inl (Or.inr ⟨by rw [he, hx], hx ▸ hs, hc⟩)
        · exact Or.inr ⟨x, hx, he, hs, hc⟩

theorem applyCluster_noFail (cl : ConceptCluster) (g : ConceptGraph) :
    (applyCluster noFail cl g).2 = none
    ∧ (applyCluster noFail cl g).1.concepts = g.concepts
    ∧ (∀ n, n ∈ (applyCluster noFail cl g).1.canonicals.map Prod.fst ↔
        n ∈ g.canonicals.map Prod.fst ∨ n = cl.canonical_name)
    ∧ (∀ e, e ∈ (applyCluster noFail cl g).1.aligns ↔
        e ∈ g.aligns ∨ ∃ s ∈ cl.source_concepts,
          e = (s, cl.canonical_name) ∧ s ∈ g.concepts) := by
  have hstep : applyCluster noFail cl g
      = applyAligns noFail cl.canonical_name cl.source_concepts
          (applyWrite g (.canon cl.canonical_name cl.description)) := by
    simp [applyCluster, noFail]
  have hg1k : ∀ n,
      n ∈ (applyWrite g (.canon cl.canonical_name cl.description)).canonicals.map Prod.fst
        ↔ n ∈ g.canonicals.map Prod.fst ∨ n = cl.canonical_name :=
    fun n => mem_upsertCanonical g.canonicals cl.canonical_name cl.description n
  have hmem : cl.canonical_name
      ∈ (applyWrite g (.canon cl.canonical_name cl.description)).canonicals.map Prod.fst :=
    (hg1k _).mpr (Or.inr rfl)
  obtain ⟨h1, h2, h3, h4⟩ := applyAligns_noFail cl.canonical_name cl.source_concepts
    (applyWrite g (.canon cl.canonical_name cl.description))
  rw [hstep]
  refine ⟨h1, h2, ?_, ?_⟩
  · intro n
    rw [show (applyAligns noFail cl.canonical_name cl.source_concepts
        (applyWrite g (.canon cl.canonical_name cl.description))).1.canonicals
      = (applyWrite g (.canon cl.canonical_name cl.description)).canonicals from h3]
    exact hg1k n
  · intro e
    rw [h4 e]
    constructor
    · rintro (h | ⟨s, hs, he, hsc, -⟩)
      · exact Or.inl h
      · exact Or.inr ⟨s, hs, he, hsc⟩
    · rintro (h | ⟨s, hs, he, hsc⟩)
      · exact Or.inl h
      · exact Or.inr ⟨s, hs, he, hsc, hmem⟩

theorem apply_clusters_noFail (cs : List ConceptCluster) (g : ConceptGraph) :
    (apply_clusters noFail cs g).2 = none
    ∧ (apply_clusters noFail cs g).1.concepts = g.concepts
    ∧ (∀ n, n ∈ (apply_clusters noFail cs g).1.canonicals.map Prod.fst ↔
        n ∈ g.canonicals.map Prod.fst ∨ n ∈ cs.map (fun cl => cl.canonical_name))
    ∧ (∀ e, e ∈ (apply_clusters noFail cs g).1.aligns ↔
        e ∈ g.aligns ∨ ∃ cl ∈ cs, ∃ s ∈ cl.source_concepts,
          e = (s, cl.canonical_name) ∧ s ∈ g.concepts) := by
  induction cs generalizing g with
  | nil =>
    exact ⟨rfl, rfl, by simp [apply_clusters], by simp [apply_clusters]⟩
  | cons cl rest ih =>
    obtain ⟨c1, c2, c3, c4⟩ := applyCluster_noFail cl g
    have hnone : applyCluster noFail cl g = ((applyCluster noFail cl g).1, none) := by
      rw [← c1]
    have hstep : apply_clusters noFail (cl :: rest) g
        = apply_clusters noFail rest (applyCluster noFail cl g).1 := by
      simp only [apply_clusters]
      rw [hnone]
    obtain ⟨i1, i2, i3, i4⟩ := ih (applyCluster noFail cl g).1
    rw [hstep]
    refine ⟨i1, by rw [i2, c2], ?_, ?_⟩
    · intro n
      rw [i3 n, c3 n]
      simp only [List.map_cons, List.mem_cons]
      tauto
    · intro e
      rw [i4 e, c4 e]
      constructor
      · rintro ((h | ⟨s, hs, he, hsc⟩) | ⟨cl2, hcl2, s, hs, he, hsc⟩)
        · exact Or.inl h
        · exact Or.inr ⟨cl, by simp, s, hs, he, hsc⟩
        · exact Or.inr ⟨cl2, by simp [hcl2], s, hs, he, c2 ▸ hsc⟩
      · rintro (h | ⟨cl2, hcl2, s, hs, he, hsc⟩)
        · exact Or.inl (Or.inl h)
        · rcases List.mem_cons.mp hcl2 with hcc | hcc
          · exact Or.inl (Or.inr ⟨s, hcc ▸ hs, hcc ▸ he, hsc⟩)
          · exact Or.inr ⟨cl2, hcc, s, hs, he, c2.symm ▸ hsc⟩

/-- Claim C6: running `apply_clusters` twice with identical clustering
output and no write failures yields the same CanonicalConcept node set and
the same ALIGNS_TO edge set as running it once: the canonical upsert is
keyed by name and the alignment merge by the concept-canonical pair, so the
second run adds nothing. -/
theorem claim_c6_idempotent (clusters : List ConceptCluster) (g : ConceptGraph) :
    (∀ n, n ∈ (apply_clusters noFail clusters
          (apply_clusters noFail clusters g).1).1.canonicals.map Prod.fst
        ↔ n ∈ (apply_clusters noFail clusters g).1.canonicals.map Prod.fst)
    ∧ (∀ e, e ∈ (apply_clusters noFail clusters
          (apply_clusters noFail clusters g).1).1.aligns
        ↔ e ∈ (apply_clusters noFail clusters g).1.aligns) := by
  obtain ⟨-, hc, hk, ha⟩ := apply_clusters_noFail clusters g
  obtain ⟨-, -, hk2, ha2⟩ :=
    apply_clusters_noFail clusters (apply_clusters noFail clusters g).1
  constructor
  · intro n
    rw [hk2 n, hk n]
    tauto
  · intro e
    rw [ha2 e, ha e]
    simp only [hc]
    tauto

/-! ## Part D: the curriculum generator
(`src/services/generator_service copy.py`, `GeneratorService`, plus the
older `_find_matching_slides` of `src/services/generator_service.py`).

External collaborators become inputs: the outline query result rows, the
harmonizer (language model) output sections, the Weaviate search (an
oracle from a request to a response or an exception), the all-slides query
result, and the random project id. -/

/-- One `{name, score}` entry of an outline query row (`max_score` is the
aggregated maximum salience). -/
structure OutlineConceptRow where
  name : String
  score : Rat
deriving Repr, DecidableEq

/-- One row of the `_fetch_source_outlines` Cypher result. An empty
`section_title` models a falsy (null or empty) title, which the loop
skips. -/
structure OutlineRow where
  section_title : String
  bu : String
  course_id : String
  concepts : List OutlineConceptRow
deriving Repr, DecidableEq

/-- One weighted outline passed to the skeleton generator. -/
structure Outline where
  bu : String
  section_title : String
  concepts : List String
deriving Repr, DecidableEq

/-- The three values built by `_fetch_source_outlines` and returned as a
tuple at line 194: `return outlines, list(course_ids), all_known_concepts`.
The Python sets `course_ids` and `all_known_concepts` are modelled as
first-occurrence lists (membership-faithful). -/
structure FetchResult where
  outlines : List Outline
  course_ids : List String
  known_concepts : List String
deriving Repr, DecidableEq

/-- `sorted(r.concepts, key=lambda x: x.score, reverse=True)` comparison
(Python `sorted` is stable). -/
def scoreGE (a b : OutlineConceptRow) : Prop := b.score ≤ a.score

instance : DecidableRel scoreGE := fun a b => inferInstanceAs (Decidable (b.score ≤ a.score))

instance : IsTotal OutlineConceptRow scoreGE := ⟨fun a b => le_total b.score a.score⟩

instance : IsTrans OutlineConceptRow scoreGE := ⟨fun _ _ _ h1 h2 => le_trans h2 h1⟩

/-- The semantic bucketing: `>= 0.8` Primary, `>= 0.5` Secondary, else
Mention. -/
def tagFor (score : Rat) : String :=
  if score ≥ 4 / 5 then "(Primary)"
  else if score ≥ 1 / 2 then "(Secondary)"
  else "(Mention)"

/-- One iteration of the `for r in results` loop of
`_fetch_source_outlines`: skip falsy titles, record the course id, sort
concepts by score descending, keep the top 15, add their names to the
known set, and format each as `"{name} {tag}"`. -/
def processRow (acc : FetchResult) (r : OutlineRow) : FetchResult :=
  if r.section_title = "" then acc
  else
    let top := (List.insertionSort scoreGE r.concepts).take 15
    { outlines := acc.outlines
        ++ [⟨r.bu, r.section_title,
            top.map (fun c => c.name ++ " " ++ tagFor c.score)⟩],
      course_ids :=
        if r.course_id ∈ acc.course_ids then acc.course_ids
        else acc.course_ids ++ [r.course_id],
      known_concepts := acc.known_concepts ++ top.map (fun c => c.name) }

/-- `GeneratorService._fetch_source_outlines` over the query result rows. -/
def fetch_source_outlines (rows : List OutlineRow) : FetchResult :=
  rows.foldl processRow ⟨[], [], []⟩

/-- A Weaviate query as built by the code: the near-text concepts, the
certainty threshold, the optional course-id where-filter, and the limit. -/
structure SearchRequest where
  concepts : List String
  certainty : Rat
  course_filter : Option (List String)
  limit : Nat
deriving Repr, DecidableEq

/-- One hit of a Weaviate response. -/
structure SlideHit where
  slide_id : String
  text : String
deriving Repr, DecidableEq

/-- The course filter is attached only when `allowed_course_ids` is truthy
(neither None nor the empty list). -/
def whereFilter : Option (List String) → Option (List String)
  | none => none
  | some l => if l.isEmpty then none else some l

/-- `text[:100] + "..."`. -/
def preview100 (t : String) : String := t.take 100 ++ "..."

/-- One suggested slide: `match_reason` is present on iterative-search
results and absent on unassigned-section entries. -/
structure SuggestedSlide where
  slide_id : String
  text_preview : String
  match_reason : Option String
deriving Repr, DecidableEq

/-- The request issued for one concept by the iterative search: one
near-text concept, certainty 0.65, the course filter, limit 2. -/
def mkIterRequest (allowed : Option (List String)) (concept : String) : SearchRequest :=
  ⟨[concept], 13 / 20, whereFilter allowed, 2⟩

/-- The `for hit in hits` accumulation into the `unique_slides` dict:
first concept to surface a slide wins; later duplicates are dropped. -/
def insertHits (concept : String) : List SlideHit → List SuggestedSlide → List SuggestedSlide
  | [], acc => acc
  | hit :: rest, acc =>
    if acc.any (fun s => s.slide_id == hit.slide_id) then
      insertHits concept rest acc
    else
      insertHits concept rest (acc ++ [⟨hit.slide_id, preview100 hit.text, some concept⟩])

/-- The `for concept in priority_concepts` loop of
`_find_matching_slides_iterative`: issues one request per concept, catches
a per-concept failure (logged, skipped), and also records the issued
requests. -/
def iterLoop (search : SearchRequest → Except String (List SlideHit))
    (allowed : Option (List String)) :
    List String → List SuggestedSlide → List SuggestedSlide × List SearchRequest
  | [], acc => (acc, [])
  | c :: rest, acc =>
    let req := mkIterRequest allowed c
    let acc2 := match search req with
      | .ok hits => insertHits c hits acc
      | .error _ => acc
    let r := iterLoop search allowed rest acc2
    (r.1, req :: r.2)

/-- `GeneratorService._find_matching_slides_iterative` (instrumented with
the list of issued requests): empty key concepts short-circuit, otherwise
query the first 5 concepts and cap the deduplicated result at 6 slides. -/
def find_matching_slides_iterative (key_concepts : List String)
    (allowed : Option (List String))
    (search : SearchRequest → Except String (List SlideHit)) :
    List SuggestedSlide × List SearchRequest :=
  if key_concepts.isEmpty then ([], [])
  else
    let r := iterLoop search allowed (key_concepts.take 5) []
    (r.1.take 6, r.2)

/-- `GeneratorService._find_matching_slides` of the non-refactored service
(instrumented): one combined query of all concepts joined by spaces,
certainty 0.6, limit `top_n * 3` when filtered else `top_n`, returning the
first `top_n` hits (no match reason); empty key concepts short-circuit and
a failure yields an empty result. -/
def find_matching_slides (key_concepts : List String) (top_n : Nat)
    (allowed : Option (List String))
    (search : SearchRequest → Except String (List SlideHit)) :
    List SuggestedSlide × List SearchRequest :=
  if key_concepts.isEmpty then ([], [])
  else
    let req : SearchRequest :=
      ⟨[" ".intercalate key_concepts], 3 / 5, whereFilter allowed,
        if (whereFilter allowed).isSome then top_n * 3 else top_n⟩
    match search req with
    | .ok hits =>
      ((hits.take top_n).map (fun h => ⟨h.slide_id, preview100 h.text, none⟩), [req])
    | .error _ => ([], [req])

/-- One section as returned by the skeleton harmonizer (the language
model): per the contract it carries a title, a rationale and key
concepts. -/
structure GenSection where
  title : String
  rationale : String
  key_concepts : List String
deriving Repr, DecidableEq

/-- One enriched section of the generator: the section fields plus the
suggested slides; `is_unassigned` is false unless the section is the
appended unassigned pseudo-section. -/
structure EnrichedSection where
  title : String
  rationale : String
  key_concepts : List String
  suggested_slides : List SuggestedSlide
  is_unassigned : Bool
deriving Repr, DecidableEq

/-- One row of `_fetch_all_slides_for_courses`: a slide id and text of a
slide belonging to one of the source courses. -/
structure SlideRow where
  id : String
  text : String
deriving Repr, DecidableEq

/-- The `assigned_slide_ids` set of step 4: every slide id referenced by
any enriched section's suggestions. -/
def assignedSlideIds (sections : List EnrichedSection) : List String :=
  (sections.map (fun sec => sec.suggested_slides.map (fun s => s.slide_id))).flatten

/-- Step 4 of `generate_skeleton` (lines 92-116): subtract the assigned
slide ids from all source slides and, when the remainder is non-empty,
append the unassigned pseudo-section listing each remaining slide with a
text preview. -/
def compute_unassigned (enriched : List EnrichedSection)
    (all_source_slides : List SlideRow) : List EnrichedSection :=
  let assigned := assignedSlideIds enriched
  let unassigned := all_source_slides.filter (fun s => ¬ s.id ∈ assigned)
  if unassigned.isEmpty then enriched
  else
    enriched ++ [⟨"⚠️ Unassigned / For Review",
      "Slides available in source material but not used by the AI strategy.",
      [],
      unassigned.map (fun s => ⟨s.id, preview100 s.text, none⟩),
      true⟩]

/-- One TargetNode created by `_persist_project`. -/
structure TargetNodeRec where
  id : String
  title : String
  rationale : String
  key_concepts : List String
  status : String
  order : Nat
  is_unassigned : Bool
deriving Repr, DecidableEq

/-- Everything `_persist_project` writes: the Project node and, per
section, a TargetNode (with `order := i` from `enumerate`) plus one
SUGGESTED_SOURCE edge per suggested slide. -/
structure ProjectWrites where
  project_id : String
  title : String
  status : String
  target_nodes : List TargetNodeRec
  suggested_edges : List (String × String)
deriving Repr, DecidableEq

/-- The TargetNode written for index `i`: id `{project_id}_target_{i}`,
status suggestion, `order := i`, `section.get(is_unassigned, False)`. -/
def mkTargetNode (project_id : String) (i : Nat) (sec : EnrichedSection) : TargetNodeRec :=
  ⟨project_id ++ "_target_" ++ toString i, sec.title, sec.rationale,
    sec.key_concepts, "suggestion", i, sec.is_unassigned⟩

/-- The `for i, section in enumerate(sections)` TargetNode writes. -/
def buildTargetNodes (project_id : String) : Nat → List EnrichedSection → List TargetNodeRec
  | _, [] => []
  | i, sec :: rest => mkTargetNode project_id i sec :: buildTargetNodes project_id (i + 1) rest

/-- The SUGGESTED_SOURCE edges written for each section's suggested
slides. -/
def buildEdges (project_id : String) : Nat → List EnrichedSection → List (String × String)
  | _, [] => []
  | i, sec :: rest =>
    sec.suggested_slides.map
        (fun sl => (project_id ++ "_target_" ++ toString i, sl.slide_id))
      ++ buildEdges project_id (i + 1) rest

/-- `GeneratorService._persist_project` (the random uuid4 project id is an
input): creates the draft Project and the enumerated TargetNodes and
edges. -/
def persist_project (project_id : String) (title : String)
    (sections : List EnrichedSection) : ProjectWrites :=
  ⟨project_id, title, "draft",
    buildTargetNodes project_id 0 sections, buildEdges project_id 0 sections⟩

/-- Python tuple unpacking `x, y = v`: succeeds only when the value has
exactly two components, otherwise raises ValueError. -/
def unpackTwo {α : Type} (arity : Nat) (v : α) : Except String α :=
  if arity = 2 then Except.ok v
  else Except.error "ValueError: too many values to unpack (expected 2)"

/-- Number of components of the tuple `_fetch_source_outlines` returns at
line 194: `return outlines, list(course_ids), all_known_concepts`. -/
def fetchReturnComponents : Nat := 3

/-- `GeneratorService.generate_skeleton` (no master course id). Line 37
binds two names to the 3-tuple returned by `_fetch_source_outlines`, so
Python raises ValueError before any section is processed; were that
repaired, the first iteration of the section loop reads the name
`known_source_concepts`, which is bound nowhere in the function, raising
NameError. The later steps (enrichment, unassigned computation,
persistence) are therefore unreachable from this entry point; they are kept
here, composed from the step functions above, to document the intended
flow. -/
def generate_skeleton (rows : List OutlineRow)
    (harmonizerSections : List GenSection)
    (allSlides : List SlideRow) (project_id : String) (title : String) :
    Except String (ProjectWrites × List EnrichedSection) := do
  let fetched := fetch_source_outlines rows
  let (source_outlines, _source_course_ids) ←
    unpackTwo fetchReturnComponents (fetched.outlines, fetched.course_ids)
  if source_outlines.isEmpty then
    Except.error "ValueError: No source outlines found for the given IDs"
  else do
    let enriched : List EnrichedSection ←
      if harmonizerSections.isEmpty then pure []
      else Except.error "NameError: name known_source_concepts is not defined"
    let final := compute_unassigned enriched allSlides
    pure (persist_project project_id title final, final)

/-- Outline rows for the claim C1 input: one valid source section. -/
def c1Rows : List OutlineRow :=
  [⟨"Electrical Basics", "BU-1", "courseA", [⟨"Voltage", 9 / 10⟩]⟩]

/-- Claim C1 (code-bug evidence): even on a run whose generated sections
include one citing only the ungrounded concept Quantum Flux, the generator
never marks it as a gap: `generate_skeleton` raises
`ValueError: too many values to unpack (expected 2)` at the line-37
assignment (the helper returns a 3-tuple) before any section is processed,
and its gap check reads the unbound name `known_source_concepts`. -/
theorem claim_c1_code_bug :
    generate_skeleton c1Rows
        [⟨"Quantum Mechanics Overview", "Introduces advanced theory",
          ["Quantum Flux"]⟩]
        [] "proj-1" "New Curriculum"
      = Except.error "ValueError: too many values to unpack (expected 2)" := rfl

/-- Claim C10: called with an empty key-concepts list, both slide-matching
operations return the empty result immediately and issue no vector search
request. -/
theorem claim_c10_empty_key_concepts (allowed : Option (List String)) (top_n : Nat)
    (search : SearchRequest → Except String (List SlideHit)) :
    find_matching_slides_iterative [] allowed search = ([], [])
    ∧ find_matching_slides [] top_n allowed search = ([], []) :=
  ⟨rfl, rfl⟩

/-- Claim C4: over the slides of the selected source courses (whose ids
are distinct, being `MERGE`d by id), every slide is covered by some section
of the final list -- a regular section suggesting it or the appended
unassigned pseudo-section -- and a slide absent from every section's
suggestions appears in the unassigned section's list exactly once. -/
theorem claim_c4_completeness (enriched : List EnrichedSection)
    (allSlides : List SlideRow)
    (hnd : (allSlides.map (fun s => s.id)).Nodup) :
    (∀ s ∈ allSlides, ∃ sec ∈ compute_unassigned enriched allSlides,
        s.id ∈ sec.suggested_slides.map (fun sl => sl.slide_id))
    ∧ (∀ s ∈ allSlides, s.id ∉ assignedSlideIds enriched →
        ∃ sec ∈ compute_unassigned enriched allSlides,
          sec.is_unassigned = true
          ∧ (sec.suggested_slides.map (fun sl => sl.slide_id)).count s.id = 1) := by
  have hsubenr : ∀ sec ∈ enriched, sec ∈ compute_unassigned enriched allSlides := by
    intro sec hsec
    unfold compute_unassigned
    dsimp only
    split
    · exact hsec
    · exact List.mem_append_left _ hsec
  have hunassigned : ∀ s ∈ allSlides, s.id ∉ assignedSlideIds enriched →
      ∃ sec ∈ compute_unassigned enriched allSlides,
        sec.is_unassigned = true
        ∧ (sec.suggested_slides.map (fun sl => sl.slide_id)).count s.id = 1 := by
    intro s hs hin
    have hsf : s ∈ allSlides.filter (fun x => ¬ x.id ∈ assignedSlideIds enriched) :=
      List.mem_filter.mpr ⟨hs, by simpa using hin⟩
    have hne : ¬ (allSlides.filter
        (fun x => ¬ x.id ∈ assignedSlideIds enriched)).isEmpty = true := by
      intro he
      rw [List.isEmpty_iff] at he
      rw [he] at hsf
      simp at hsf
    have hshape : compute_unassigned enriched allSlides
        = enriched ++ [⟨"⚠️ Unassigned / For Review",
            "Slides available in source material but not used by the AI strategy.",
            [],
            (allSlides.filter (fun x => ¬ x.id ∈ assignedSlideIds enriched)).map
              (fun x => ⟨x.id, preview100 x.text, none⟩),
            true⟩] := by
      unfold compute_unassigned
      dsimp only
      rw [if_neg hne]
    have hids : (((allSlides.filter
          (fun x => ¬ x.id ∈ assignedSlideIds enriched)).map
            (fun x => (⟨x.id, preview100 x.text, none⟩ : SuggestedSlide))).map
              (fun sl => sl.slide_id))
        = (allSlides.filter (fun x => ¬ x.id ∈ assignedSlideIds enriched)).map
            (fun x => x.id) := by
      rw [List.map_map]
      rfl
    have hsub : ((allSlides.filter
          (fun x => ¬ x.id ∈ assignedSlideIds enriched)).map (fun x => x.id)).Sublist
        (allSlides.map (fun x => x.id)) :=
      (List.filter_sublist _).map _
    have hnd2 : ((allSlides.filter
        (fun x => ¬ x.id ∈ assignedSlideIds enriched)).map (fun x => x.id)).Nodup :=
      hnd.sublist hsub
    have hmem2 : s.id ∈ (allSlides.filter
        (fun x => ¬ x.id ∈ assignedSlideIds enriched)).map (fun x => x.id) :=
      List.mem_map.mpr ⟨s, hsf, rfl⟩
    rw [hshape]
    refine ⟨_, List.mem_append_right _ (List.mem_singleton_self _), rfl, ?_⟩
    rw [hids]
    exact List.count_eq_one_of_mem hnd2 hmem2
  refine ⟨?_, hunassigned⟩
  intro s hs
  by_cases hin : s.id ∈ assignedSlideIds enriched
  · simp only [assignedSlideIds, List.mem_flatten, List.mem_map] at hin
    obtain ⟨l, ⟨sec, hsec, hfl⟩, hmem⟩ := hin
    refine ⟨sec, hsubenr sec hsec, ?_⟩
    rw [hfl]
    exact hmem
  · obtain ⟨sec, hsec, -, hcount⟩ := hunassigned s hs hin
    refine ⟨sec, hsec, ?_⟩
    have hpos : 0 < (sec.suggested_slides.map (fun sl => sl.slide_id)).count s.id := by
      omega
    exact List.count_pos_iff.mp hpos

/-- Witness for claim C4 at a concrete input: one enriched section
suggesting slide s1, two source slides s1 and s2. -/
theorem claim_c4_completeness_witness :
    (∀ s ∈ [(⟨"s1", "text one"⟩ : SlideRow), ⟨"s2", "text two"⟩],
      ∃ sec ∈ compute_unassigned
          [⟨"Intro", "grounded", ["Voltage"], [⟨"s1", "p", some "Voltage"⟩], false⟩]
          [⟨"s1", "text one"⟩, ⟨"s2", "text two"⟩],
        s.id ∈ sec.suggested_slides.map (fun sl => sl.slide_id))
    ∧ (∀ s ∈ [(⟨"s1", "text one"⟩ : SlideRow), ⟨"s2", "text two"⟩],
        s.id ∉ assignedSlideIds
          [⟨"Intro", "grounded", ["Voltage"], [⟨"s1", "p", some "Voltage"⟩], false⟩] →
        ∃ sec ∈ compute_unassigned
            [⟨"Intro", "grounded", ["Voltage"], [⟨"s1", "p", some "Voltage"⟩], false⟩]
            [⟨"s1", "text one"⟩, ⟨"s2", "text two"⟩],
          sec.is_unassigned = true
          ∧ (sec.suggested_slides.map (fun sl => sl.slide_id)).count s.id = 1) :=
  claim_c4_completeness
    [⟨"Intro", "grounded", ["Voltage"], [⟨"s1", "p", some "Voltage"⟩], false⟩]
    [⟨"s1", "text one"⟩, ⟨"s2", "text two"⟩] (by decide)


theorem buildTargetNodes_orders (pid : String) (i : Nat) (l : List EnrichedSection) :
    (buildTargetNodes pid i l).map (fun t => t.order) = List.range' i l.length := by
  induction l generalizing i with
  | nil => rfl
  | cons sec rest ih =>
    simp only [buildTargetNodes, List.map_cons, List.length_cons, List.range'_succ]
    exact congrArg (List.cons i) (ih (i + 1))

theorem buildTargetNodes_append (pid : String) (i : Nat)
    (l1 l2 : List EnrichedSection) :
    buildTargetNodes pid i (l1 ++ l2)
      = buildTargetNodes pid i l1 ++ buildTargetNodes pid (i + l1.length) l2 := by
  induction l1 generalizing i with
  | nil => simp [buildTargetNodes]
  | cons sec rest ih =>
    simp only [List.cons_append, buildTargetNodes, List.length_cons,
      List.cons.injEq, true_and]
    have hidx : i + 1 + rest.length = i + (rest.length + 1) := by omega
    rw [← hidx]
    exact ih (i + 1)

theorem buildTargetNodes_flag_false (pid : String) (i : Nat)
    (l : List EnrichedSection) (h : ∀ sec ∈ l, sec.is_unassigned = false) :
    ∀ t ∈ buildTargetNodes pid i l, t.is_unassigned = false := by
  induction l generalizing i with
  | nil => intro t ht; simp [buildTargetNodes] at ht
  | cons sec rest ih =>
    intro t ht
    rcases List.mem_cons.mp ht with ht | ht
    · rw [ht]
      exact h sec (by simp)
    · exact ih (i + 1) (fun x hx => h x (by simp [hx])) t ht

/-- Claim C9: persisting the final section list (the enriched sections,
none of which is flagged unassigned, followed by the optional unassigned
pseudo-section appended by the unassigned computation) writes TargetNodes
whose order values are exactly 0, 1, ..., n-1 in generation order -- in
particular unique and strictly increasing -- and any node flagged
unassigned carries the last order value. -/
theorem claim_c9_persist_order (project_id title : String)
    (enriched : List EnrichedSection) (allSlides : List SlideRow)
    (h : ∀ sec ∈ enriched, sec.is_unassigned = false) :
    ((persist_project project_id title
        (compute_unassigned enriched allSlides)).target_nodes.map (fun t => t.order))
      = List.range (compute_unassigned enriched allSlides).length
    ∧ ((persist_project project_id title
        (compute_unassigned enriched allSlides)).target_nodes.map
          (fun t => t.order)).Nodup
    ∧ List.Pairwise (· < ·)
        ((persist_project project_id title
          (compute_unassigned enriched allSlides)).target_nodes.map (fun t => t.order))
    ∧ ∀ t ∈ (persist_project project_id title
          (compute_unassigned enriched allSlides)).target_nodes,
        t.is_unassigned = true →
          t.order + 1 = (compute_unassigned enriched allSlides).length := by
  have horders : ((persist_project project_id title
      (compute_unassigned enriched allSlides)).target_nodes.map (fun t => t.order))
      = List.range (compute_unassigned enriched allSlides).length := by
    rw [List.range_eq_range']
    exact buildTargetNodes_orders project_id 0 (compute_unassigned enriched allSlides)
  refine ⟨horders, by rw [horders]; exact List.nodup_range _,
    by rw [horders]; exact List.pairwise_lt_range _, ?_⟩
  intro t ht hflag
  unfold compute_unassigned at ht ⊢
  dsimp only at ht ⊢
  by_cases hemp : ((allSlides.filter
      (fun s => ¬ s.id ∈ assignedSlideIds enriched)).isEmpty) = true
  · rw [if_pos hemp] at ht ⊢
    have := buildTargetNodes_flag_false project_id 0 enriched h t ht
    rw [hflag] at this
    cases this
  · rw [if_neg hemp] at ht ⊢
    rw [persist_project] at ht
    dsimp only at ht
    rw [buildTargetNodes_append] at ht
    rcases List.mem_append.mp ht with ht2 | ht2
    · have := buildTargetNodes_flag_false project_id 0 enriched h t ht2
      rw [hflag] at this
      cases this
    · simp only [buildTargetNodes, List.mem_singleton] at ht2
      rw [ht2]
      simp [mkTargetNode]

/-- Witness for claim C9 at a concrete input: one regular enriched section
plus one leftover slide forcing the unassigned pseudo-section. -/
theorem claim_c9_persist_order_witness :
    ((persist_project "p1" "New Curriculum"
        (compute_unassigned
          [⟨"Intro", "grounded", ["Voltage"], [⟨"s1", "p", some "Voltage"⟩], false⟩]
          [⟨"s1", "text one"⟩, ⟨"s2", "text two"⟩])).target_nodes.map
            (fun t => t.order))
      = List.range (compute_unassigned
          [⟨"Intro", "grounded", ["Voltage"], [⟨"s1", "p", some "Voltage"⟩], false⟩]
          [⟨"s1", "text one"⟩, ⟨"s2", "text two"⟩]).length
    ∧ ((persist_project "p1" "New Curriculum"
        (compute_unassigned
          [⟨"Intro", "grounded", ["Voltage"], [⟨"s1", "p", some "Voltage"⟩], false⟩]
          [⟨"s1", "text one"⟩, ⟨"s2", "text two"⟩])).target_nodes.map
            (fun t => t.order)).Nodup
    ∧ List.Pairwise (· < ·)
        ((persist_project "p1" "New Curriculum"
          (compute_unassigned
            [⟨"Intro", "grounded", ["Voltage"], [⟨"s1", "p", some "Voltage"⟩], false⟩]
            [⟨"s1", "text one"⟩, ⟨"s2", "text two"⟩])).target_nodes.map
              (fun t => t.order))
    ∧ ∀ t ∈ (persist_project "p1" "New Curriculum"
          (compute_unassigned
            [⟨"Intro", "grounded", ["Voltage"], [⟨"s1", "p", some "Voltage"⟩], false⟩]
            [⟨"s1", "text one"⟩, ⟨"s2", "text two"⟩])).target_nodes,
        t.is_unassigned = true →
          t.order + 1 = (compute_unassigned
            [⟨"Intro", "grounded", ["Voltage"], [⟨"s1", "p", some "Voltage"⟩], false⟩]
            [⟨"s1", "text one"⟩, ⟨"s2", "text two"⟩]).length :=
  claim_c9_persist_order "p1" "New Curriculum"
    [⟨"Intro", "grounded", ["Voltage"], [⟨"s1", "p", some "Voltage"⟩], false⟩]
    [⟨"s1", "text one"⟩, ⟨"s2", "text two"⟩] (by decide)

/-- The hits a concept's query contributes: the response hits on success,
nothing when the query raised (the code logs and skips it). -/
def hitsOf (search : SearchRequest → Except String (List SlideHit))
    (allowed : Option (List String)) (c : String) : List SlideHit :=
  match search (mkIterRequest allowed c) with
  | .ok hits => hits
  | .error _ => []

/-- Specification-side characterization of the match reason: the first
concept in query order whose (successful) hits contain the slide. -/
def firstSurfacer (f : String → List SlideHit) : List String → String → Option String
  | [], _ => none
  | c :: rest, sid =>
    if (f c).any (fun h => h.slide_id == sid) then some c
    else firstSurfacer f rest sid

theorem iterLoop_step_eq (search : SearchRequest → Except String (List SlideHit))
    (allowed : Option (List String)) (c : String) (rest : List String)
    (acc : List SuggestedSlide) :
    iterLoop search allowed (c :: rest) acc
      = ((iterLoop search allowed rest
            (insertHits c (hitsOf search allowed c) acc)).1,
         mkIterRequest allowed c
           :: (iterLoop search allowed rest
                (insertHits c (hitsOf search allowed c) acc)).2) := by
  simp only [iterLoop, hitsOf]
  cases h : search (mkIterRequest allowed c) with
  | ok hits => rfl
  | error e => rfl

theorem iterLoop_requests (search : SearchRequest → Except String (List SlideHit))
    (allowed : Option (List String)) :
    ∀ (cs : List String) (acc : List SuggestedSlide),
      (iterLoop search allowed cs acc).2 = cs.map (mkIterRequest allowed) := by
  intro cs
  induction cs with
  | nil => intro acc; rfl
  | cons c rest ih =>
    intro acc
    rw [iterLoop_step_eq]
    simp only [List.map_cons]
    exact congrArg (List.cons _) (ih _)

theorem insertHits_mem_id (c : String) :
    ∀ (hits : List SlideHit) (acc : List SuggestedSlide) (sid : String),
    (∃ s ∈ insertHits c hits acc, s.slide_id = sid)
      ↔ (∃ s ∈ acc, s.slide_id = sid) ∨ (∃ h ∈ hits, h.slide_id = sid) := by
  intro hits
  induction hits with
  | nil => intro acc sid; simp [insertHits]
  | cons hit rest ih =>
    intro acc sid
    by_cases hpres : acc.any (fun s => s.slide_id == hit.slide_id) = true
    · rw [show insertHits c (hit :: rest) acc = insertHits c rest acc from by
        simp [insertHits, hpres]]
      rw [ih]
      constructor
      · rintro (h | ⟨x, hx, hxe⟩)
        · exact Or.inl h
        · exact Or.inr ⟨x, by simp [hx], hxe⟩
      · rintro (h | ⟨x, hx, hxe⟩)
        · exact Or.inl h
        · rcases List.mem_cons.mp hx with hx2 | hx2
          · obtain ⟨s2, hs2, hs2e⟩ := List.any_eq_true.mp hpres
            refine Or.inl ⟨s2, hs2, ?_⟩
            rw [beq_iff_eq] at hs2e
            rw [hs2e, ← hx2]
            exact hxe
          · exact Or.inr ⟨x, hx2, hxe⟩
    · rw [show insertHits c (hit :: rest) acc
          = insertHits c rest (acc ++ [⟨hit.slide_id, preview100 hit.text, some c⟩])
        from by simp [insertHits, hpres]]
      rw [ih]
      constructor
      · rintro (⟨x, hx, hxe⟩ | ⟨x, hx, hxe⟩)
        · rcases List.mem_append.mp hx with hx2 | hx2
          · exact Or.inl ⟨x, hx2, hxe⟩
          · rw [List.mem_singleton] at hx2
            refine Or.inr ⟨hit, by simp, ?_⟩
            rw [hx2] at hxe
            exact hxe
        · exact Or.inr ⟨x, by simp [hx], hxe⟩
      · rintro (⟨x, hx, hxe⟩ | ⟨x, hx, hxe⟩)
        · exact Or.inl ⟨x, List.mem_append_left _ hx, hxe⟩
        · rcases List.mem_cons.mp hx with hx2 | hx2
          · refine Or.inl ⟨⟨hit.slide_id, preview100 hit.text, some c⟩,
              List.mem_append_right _ (by simp), ?_⟩
            rw [hx2] at hxe
            exact hxe
          · exact Or.inr ⟨x, hx2, hxe⟩

theorem insertHits_elem (c : String) :
    ∀ (hits : List SlideHit) (acc : List SuggestedSlide),
    ∀ s ∈ insertHits c hits acc,
      s ∈ acc ∨ (s.match_reason = some c
        ∧ (∃ h ∈ hits, h.slide_id = s.slide_id)
        ∧ ¬ ∃ s2 ∈ acc, s2.slide_id = s.slide_id) := by
  intro hits
  induction hits with
  | nil => intro acc s hs; exact Or.inl hs
  | cons hit rest ih =>
    intro acc s hs
    by_cases hpres : acc.any (fun x => x.slide_id == hit.slide_id) = true
    · rw [show insertHits c (hit :: rest) acc = insertHits c rest acc from by
        simp [insertHits, hpres]] at hs
      rcases ih acc s hs with h | ⟨hr, ⟨x, hx, hxe⟩, hnew⟩
      · exact Or.inl h
      · exact Or.inr ⟨hr, ⟨x, by simp [hx], hxe⟩, hnew⟩
    · rw [show insertHits c (hit :: rest) acc
          = insertHits c rest (acc ++ [⟨hit.slide_id, preview100 hit.text, some c⟩])
        from by simp [insertHits, hpres]] at hs
      rcases ih _ s hs with h | ⟨hr, ⟨x, hx, hxe⟩, hnew⟩
      · rcases List.mem_append.mp h with h2 | h2
        · exact Or.inl h2
        · rw [List.mem_singleton] at h2
          subst h2
          refine Or.inr ⟨rfl, ⟨hit, by simp, rfl⟩, ?_⟩
          rintro ⟨s2, hs2, hs2e⟩
          exact hpres (List.any_eq_true.mpr ⟨s2, hs2, by simp [hs2e]⟩)
      · refine Or.inr ⟨hr, ⟨x, by simp [hx], hxe⟩, ?_⟩
        rintro ⟨s2, hs2, hs2e⟩
        exact hnew ⟨s2, List.mem_append_left _ hs2, hs2e⟩

theorem firstSurfacer_append (f : String → List SlideHit) (xs ys : List String)
    (sid : String) :
    firstSurfacer f (xs ++ ys) sid
      = match firstSurfacer f xs sid with
        | some c => some c
        | none => firstSurfacer f ys sid := by
  induction xs with
  | nil => rfl
  | cons c rest ih =>
    simp only [List.cons_append, firstSurfacer]
    by_cases h : (f c).any (fun x => x.slide_id == sid) = true
    · rw [if_pos h, if_pos h]
    · rw [if_neg h, if_neg h]
      exact ih

theorem iterLoop_reason (search : SearchRequest → Except String (List SlideHit))
    (allowed : Option (List String)) :
    ∀ (cs processed : List String) (acc : List SuggestedSlide),
    (∀ s ∈ acc, s.match_reason
        = firstSurfacer (hitsOf search allowed) processed s.slide_id)
    → (∀ sid, (∃ s ∈ acc, s.slide_id = sid)
        ↔ (firstSurfacer (hitsOf search allowed) processed sid).isSome = true)
    → ∀ s ∈ (iterLoop search allowed cs acc).1,
        s.match_reason
          = firstSurfacer (hitsOf search allowed) (processed ++ cs) s.slide_id := by
  intro cs
  induction cs with
  | nil =>
    intro processed acc h1 h2 s hs
    rw [List.append_nil]
    exact h1 s hs
  | cons c rest ih =>
    intro processed acc h1 h2 s hs
    rw [iterLoop_step_eq] at hs
    have inv1 : ∀ s2 ∈ insertHits c (hitsOf search allowed c) acc,
        s2.match_reason
          = firstSurfacer (hitsOf search allowed) (processed ++ [c]) s2.slide_id := by
      intro s2 hs2
      rcases insertHits_elem c (hitsOf search allowed c) acc s2 hs2 with
        h | ⟨hr, ⟨x, hx, hxe⟩, hnew⟩
      · have hr0 := h1 s2 h
        have hsome : (firstSurfacer (hitsOf search allowed) processed
            s2.slide_id).isSome = true := (h2 s2.slide_id).mp ⟨s2, h, rfl⟩
        rw [firstSurfacer_append]
        cases hfs : firstSurfacer (hitsOf search allowed) processed s2.slide_id with
        | some r => rw [hr0, hfs]
        | none => rw [hfs] at hsome; simp at hsome
      · have hnone : firstSurfacer (hitsOf search allowed) processed s2.slide_id
            = none := by
          cases hfs : firstSurfacer (hitsOf search allowed) processed s2.slide_id with
          | none => rfl
          | some r =>
            exfalso
            exact hnew ((h2 s2.slide_id).mpr (by rw [hfs]; rfl))
        rw [firstSurfacer_append, hnone]
        simp only [firstSurfacer]
        rw [if_pos (List.any_eq_true.mpr ⟨x, hx, by simp [hxe]⟩)]
        exact hr
    have inv2 : ∀ sid,
        (∃ s2 ∈ insertHits c (hitsOf search allowed c) acc, s2.slide_id = sid)
          ↔ (firstSurfacer (hitsOf search allowed) (processed ++ [c]) sid).isSome
              = true := by
      intro sid
      rw [insertHits_mem_id, firstSurfacer_append]
      constructor
      · rintro (h | ⟨x, hx, hxe⟩)
        · have hh := (h2 sid).mp h
          cases hfs : firstSurfacer (hitsOf search allowed) processed sid with
          | some r => rfl
          | none => rw [hfs] at hh; simp at hh
        · cases hfs : firstSurfacer (hitsOf search allowed) processed sid with
          | some r => rfl
          | none =>
            show (firstSurfacer (hitsOf search allowed) [c] sid).isSome = true
            simp only [firstSurfacer]
            rw [if_pos (List.any_eq_true.mpr ⟨x, hx, by simp [hxe]⟩)]
            rfl
      · intro h
        cases hfs : firstSurfacer (hitsOf search allowed) processed sid with
        | some r =>
          exact Or.inl ((h2 sid).mpr (by rw [hfs]; rfl))
        | none =>
          rw [hfs] at h
          have h3 : (firstSurfacer (hitsOf search allowed) [c] sid).isSome = true := h
          simp only [firstSurfacer] at h3
          by_cases hany : ((hitsOf search allowed c).any
              (fun x => x.slide_id == sid)) = true
          · obtain ⟨x, hx, hxe⟩ := List.any_eq_true.mp hany
            exact Or.inr ⟨x, hx, by simpa using hxe⟩
          · rw [if_neg hany] at h3
            simp [firstSurfacer] at h3
    have hmain := ih (processed ++ [c]) (insertHits c (hitsOf search allowed c) acc)
      inv1 inv2 s hs
    rw [show processed ++ c :: rest = (processed ++ [c]) ++ rest from by simp]
    exact hmain

/-- Claim C7: for a non-gap section's key concepts, the iterative search
issues exactly one request per concept for at most the first 5 concepts --
each carrying that single concept, certainty 0.65, the source-course-id
filter, and limit 2 -- regardless of per-concept failures (a failing query
is skipped without aborting); the result is capped at 6 slides; and every
returned slide's match reason is the first queried concept whose
successful response surfaced that slide. -/
theorem claim_c7_iterative_retrieval (key_concepts : List String)
    (allowed : Option (List String))
    (search : SearchRequest → Except String (List SlideHit)) :
    (find_matching_slides_iterative key_concepts allowed search).2
        = (key_concepts.take 5).map (mkIterRequest allowed)
    ∧ (find_matching_slides_iterative key_concepts allowed search).1.length ≤ 6
    ∧ ∀ s ∈ (find_matching_slides_iterative key_concepts allowed search).1,
        s.match_reason
          = firstSurfacer (hitsOf search allowed) (key_concepts.take 5)
              s.slide_id := by
  by_cases hkc : key_concepts.isEmpty = true
  · have hk : key_concepts = [] := List.isEmpty_iff.mp hkc
    subst hk
    exact ⟨rfl, by simp [find_matching_slides_iterative],
      by intro s hs; simp [find_matching_slides_iterative] at hs⟩
  · have hdef : find_matching_slides_iterative key_concepts allowed search
        = ((iterLoop search allowed (key_concepts.take 5) []).1.take 6,
            (iterLoop search allowed (key_concepts.take 5) []).2) := by
      unfold find_matching_slides_iterative
      rw [if_neg hkc]
    rw [hdef]
    refine ⟨iterLoop_requests search allowed _ _, ?_, ?_⟩
    · rw [List.length_take]
      exact Nat.min_le_left _ _
    · intro s hs
      have hs2 : s ∈ (iterLoop search allowed (key_concepts.take 5) []).1 :=
        (List.take_sublist 6 _).subset hs
      have := iterLoop_reason search allowed (key_concepts.take 5) [] []
        (by intro s2 hs2; simp at hs2)
        (by
          intro sid
          constructor
          · rintro ⟨x, hx, -⟩
            simp at hx
          · intro h
            simp [firstSurfacer] at h)
        s hs2
      simpa using this
